import Mathlib

/-!
Verification of the double-entry bookkeeping ledger (`accounting` app).

Shallow embedding conventions:
* Monetary amounts are `DecimalField(max_digits=18, decimal_places=2)` values;
  we embed them as integers counting cents (exact 2-digit fixed point), so
  `Decimal("125.00")` is `12500 : Int`.  All sums are exact, as in `Decimal`.
* Dates (`tx_date`, report bounds) are embedded as integer day numbers; the
  only operation the code performs on them is `≤` comparison.
* A Django model row becomes a Lean structure.  The `journal` foreign key is
  embedded by the journal's unique name (its only field the core logic uses);
  the `account` foreign key of an entry line is embedded by carrying the
  joined `Account` row on the line (reporting uses `select_related("account")`
  and reads `l.account.<field>`).
* `ValidationError` / database `IntegrityError` outcomes become the explicit
  rejection type `Rejection`; `with dbtx.atomic()` blocks are embedded by
  functions that return the *final* store state: on any error the state passed
  in is returned unchanged (rollback).
-/

namespace Accounting

/-- `AccountType` choices from `accounting/models.py`. -/
inductive AccountType where
  | ASSET
  | LIAB
  | EQTY
  | INC
  | EXP
  | C_ASSET
  | C_LIAB
deriving DecidableEq, Repr

/-- `Account` model: code, name, type and normal balance direction
(`normal_debit = true` means a debit balance is the positive presentation). -/
structure Account where
  id : Nat
  code : String
  name : String
  type : AccountType
  normal_debit : Bool
  is_active : Bool
deriving DecidableEq, Repr

/-- `EntryLine` model row (the `account` foreign key is carried as the joined
row; `debit`, `credit`, `base_amount` are 2-decimal fixed point in cents). -/
structure EntryLine where
  account : Account
  debit : Int
  credit : Int
  description : String
  currency : String
  base_amount : Int
deriving DecidableEq, Repr

/-- `Transaction` model row together with its owned `lines`
(`related_name="lines"`, `on_delete=CASCADE`: the lines live and die with the
transaction, which we embed by nesting them). -/
structure Transaction where
  id : Nat
  journal : String
  tx_date : Int
  memo : String
  posted : Bool
  lines : List EntryLine
deriving DecidableEq, Repr

/-- The persistent store: the `Transaction` rows (with their lines) plus the
next primary key to hand out. -/
structure Ledger where
  transactions : List Transaction
  nextId : Nat
deriving DecidableEq, Repr

/-- The rejection taxonomy.  The code raises `ValidationError` with messages
and relies on the named database check constraints; each distinct failure is
embedded as a constructor (`UnbalancedTransaction` carries both computed
totals, as the code's message does). -/
inductive Rejection where
  | DebitCreditBothZero
  | DebitCreditBothPositive
  | NegativeAmount
  | InsufficientLines
  | UnbalancedTransaction (debits credits : Int)
  | AlreadyPosted
  | NotPosted
  | PostedTransactionImmutable
deriving DecidableEq, Repr

/-! ### Entry line validation (`EntryLine.clean`, `Meta.constraints`) -/

/-- The `debit_xor_credit` check constraint:
`~(Q(debit__gt=0) & Q(credit__gt=0))`. -/
def checkDebitXorCredit (debit credit : Int) : Bool :=
  !(debit > 0 && credit > 0)

/-- The `non_negative_amounts` check constraint:
`Q(debit__gte=0) & Q(credit__gte=0)`. -/
def checkNonNegative (debit credit : Int) : Bool :=
  debit ≥ 0 && credit ≥ 0

/-- `EntryLine.clean`: rejects when `debit == 0 and credit == 0`, otherwise
sets `base_amount = debit - credit`. -/
def EntryLine.clean (l : EntryLine) : Except Rejection EntryLine :=
  if l.debit = 0 ∧ l.credit = 0 then
    .error .DebitCreditBothZero
  else
    .ok { l with base_amount := l.debit - l.credit }

/-- `EntryLine.full_clean`: Django's `full_clean` runs the model's `clean()`
and then validates the `Meta.constraints` (`debit_xor_credit`,
`non_negative_amounts`).  This is the complete per-line validator. -/
def EntryLine.full_clean (l : EntryLine) : Except Rejection EntryLine :=
  match l.clean with
  | .error e => .error e
  | .ok l' =>
    if !checkDebitXorCredit l'.debit l'.credit then
      .error .DebitCreditBothPositive
    else if !checkNonNegative l'.debit l'.credit then
      .error .NegativeAmount
    else
      .ok l'

/-- `EntryLine.save`: recomputes `base_amount = debit - credit`
unconditionally before persisting ("Ensure base_amount always consistent even
if full_clean not called upstream"). -/
def EntryLine.save (l : EntryLine) : EntryLine :=
  { l with base_amount := l.debit - l.credit }

/-- A database INSERT of an entry line: `save()` recomputes `base_amount`,
then the database enforces the two check constraints (an insert violating
them raises `IntegrityError`).  `EntryLine.clean` is *not* run here:
`EntryLine.objects.create` never calls `full_clean`. -/
def insertLine (l : EntryLine) : Except Rejection EntryLine :=
  let l' := l.save
  if !checkDebitXorCredit l'.debit l'.credit then
    .error .DebitCreditBothPositive
  else if !checkNonNegative l'.debit l'.credit then
    .error .NegativeAmount
  else
    .ok l'

/-! ### Transaction validation and posting (`Transaction.clean/post`) -/

/-- `sum((l.debit for l in lines), Decimal("0.00"))`. -/
def sumDebits (lines : List EntryLine) : Int :=
  (lines.map (·.debit)).sum

/-- `sum((l.credit for l in lines), Decimal("0.00"))`. -/
def sumCredits (lines : List EntryLine) : Int :=
  (lines.map (·.credit)).sum

/-- `Transaction.clean`: at least two lines and exactly balanced debits and
credits. -/
def Transaction.clean (tx : Transaction) : Except Rejection Unit :=
  if tx.lines.length < 2 then
    .error .InsufficientLines
  else if sumDebits tx.lines ≠ sumCredits tx.lines then
    .error (.UnbalancedTransaction (sumDebits tx.lines) (sumCredits tx.lines))
  else
    .ok ()

/-- `Transaction.full_clean`: the model declares no constraints and `clean`
is its only validation, so this is `Transaction.clean`. -/
def Transaction.full_clean (tx : Transaction) : Except Rejection Unit :=
  tx.clean

/-- `Transaction.post`: inside one atomic block, `full_clean` then set the
`posted` flag (`self.save(update_fields=["posted"])`).  Note: the code has no
already-posted guard. -/
def Transaction.post (tx : Transaction) : Except Rejection Transaction :=
  match tx.full_clean with
  | .error e => .error e
  | .ok _ => .ok { tx with posted := true }

/-! ### The posting service (`accounting/services.py`) -/

/-- One element of the `lines` argument of `create_and_post_transaction`:
`{"account": acc, "debit": ..., "credit": ..., "description": ...}`.  The
`currency` key is absent in every caller in the repository, so the model
default `"EUR"` applies on creation. -/
structure LineInput where
  account : Account
  debit : Int
  credit : Int
  description : String
deriving DecidableEq, Repr

/-- `EntryLine.objects.create(transaction=tx, **l)`: build the row from the
input dict with the model defaults for the missing fields. -/
def mkLine (li : LineInput) : EntryLine :=
  { account := li.account, debit := li.debit, credit := li.credit,
    description := li.description, currency := "EUR", base_amount := 0 }

/-- Insert all entry lines in order; the first database constraint violation
aborts (and, being inside `dbtx.atomic()`, rolls everything back). -/
def insertLines : List LineInput → Except Rejection (List EntryLine)
  | [] => .ok []
  | li :: rest =>
    match insertLine (mkLine li) with
    | .error e => .error e
    | .ok l =>
      match insertLines rest with
      | .error e => .error e
      | .ok ls => .ok (l :: ls)

/-- `create_and_post_transaction(journal=..., tx_date=..., memo=..., lines=...)`:
inside one atomic block, create the transaction, create each line, run
`tx.full_clean()` and `tx.post()`.  Any failure rolls the whole unit of work
back, so the second component is the store afterwards: unchanged on error,
extended by exactly the new posted transaction on success. -/
def create_and_post_transaction (st : Ledger) (journal : String) (tx_date : Int)
    (memo : String) (lines : List LineInput) :
    Except Rejection Transaction × Ledger :=
  match insertLines lines with
  | .error e => (.error e, st)
  | .ok els =>
    let tx : Transaction :=
      { id := st.nextId, journal := journal, tx_date := tx_date, memo := memo,
        posted := false, lines := els }
    match tx.full_clean with
    | .error e => (.error e, st)
    | .ok _ =>
      match tx.post with
      | .error e => (.error e, st)
      | .ok tx2 =>
        (.ok tx2, { transactions := st.transactions ++ [tx2], nextId := st.nextId + 1 })

/-! ### Admin-layer operations (`accounting/admin.py`) -/

/-- Outcome of the admin "Post selected balanced transactions" action for one
transaction of the queryset. -/
inductive PostOutcome where
  | skipped
  | postedOk
  | failed (e : Rejection)
deriving DecidableEq, Repr

/-- Body of `TransactionAdmin.action_post` for a single transaction:
`if tx.posted: continue` (silent skip), otherwise `tx.full_clean(); tx.post()`
inside an atomic block, reporting an error message on failure. -/
def action_post_tx (tx : Transaction) : PostOutcome × Transaction :=
  if tx.posted then
    (.skipped, tx)
  else
    match tx.full_clean with
    | .error e => (.failed e, tx)
    | .ok _ =>
      match tx.post with
      | .error e => (.failed e, tx)
      | .ok tx2 => (.postedOk, tx2)

/-- `TransactionAdmin.has_delete_permission`: forbidden when the transaction
is posted (the surrounding `ModelAdmin` otherwise allows it). -/
def has_delete_permission (tx : Transaction) : Bool :=
  !tx.posted

/-- The delete operation as exposed by the admin: refused by
`has_delete_permission` when posted, otherwise the transaction row is removed
and its entry lines go with it (`EntryLine.transaction` has
`on_delete=CASCADE`; the lines are nested in the row here, so removing the
row removes the lines as a unit). -/
def deleteTransaction (st : Ledger) (txId : Nat) :
    Except Rejection Unit × Ledger :=
  match st.transactions.find? (fun t => t.id = txId) with
  | none => (.ok (), st)
  | some tx =>
    if tx.posted then
      (.error .PostedTransactionImmutable, st)
    else
      (.ok (), { st with transactions := st.transactions.filter (fun t => t.id ≠ txId) })

/-- The reversed line dict built by `action_reverse_transaction`:
debit and credit swapped, description annotated with the source id
(`f"Reversal of Tx {tx.pk}: {l.description or ''}"`). -/
def reverseLineInput (txId : Nat) (l : EntryLine) : LineInput :=
  { account := l.account, debit := l.credit, credit := l.debit,
    description := "Reversal of Tx " ++ toString txId ++ ": " ++ l.description }

/-- Body of `TransactionAdmin.action_reverse_transaction` for a single
transaction: skip (with a warning) when not posted, otherwise build the
swapped line dicts and call `create_and_post_transaction` in the same
journal with the same date and a reversal memo. -/
def action_reverse_transaction (st : Ledger) (tx : Transaction) :
    Except Rejection Transaction × Ledger :=
  if !tx.posted then
    (.error .NotPosted, st)
  else
    create_and_post_transaction st tx.journal tx.tx_date
      ("Reversal of Tx " ++ toString tx.id) (tx.lines.map (reverseLineInput tx.id))

/-- The transaction row produced by a successful `create_and_post_transaction`
call. -/
def newPostedTx (st : Ledger) (journal : String) (tx_date : Int) (memo : String)
    (lines : List LineInput) : Transaction :=
  { id := st.nextId, journal := journal, tx_date := tx_date, memo := memo,
    posted := true, lines := lines.map (fun li => (mkLine li).save) }

/-! ### Sample fixture data (concrete rows used by witnesses) -/

/-- A debit-normal Asset account, as seeded by `seed_coa` (`1000 · Cash`). -/
def cashAccount : Account :=
  { id := 1, code := "1000", name := "Cash", type := .ASSET,
    normal_debit := true, is_active := true }

/-- A credit-normal Income account (`4000 · Revenue`). -/
def revenueAccount : Account :=
  { id := 2, code := "4000", name := "Revenue", type := .INC,
    normal_debit := false, is_active := true }

/-- An empty store. -/
def emptyLedger : Ledger := { transactions := [], nextId := 1 }

/-- The balanced 125.00 cash-sale line inputs from the test suite. -/
def saleInputs : List LineInput :=
  [ { account := cashAccount, debit := 12500, credit := 0, description := "Cash sale" },
    { account := revenueAccount, debit := 0, credit := 12500, description := "Revenue" } ]

/-- The 10.00 / 9.99 mismatched pair. -/
def mismatchedInputs : List LineInput :=
  [ { account := cashAccount, debit := 1000, credit := 0, description := "" },
    { account := revenueAccount, debit := 0, credit := 999, description := "" } ]

/-- Two all-zero candidate lines (each individually invalid per
`EntryLine.clean`). -/
def zeroLineInputs : List LineInput :=
  [ { account := cashAccount, debit := 0, credit := 0, description := "" },
    { account := revenueAccount, debit := 0, credit := 0, description := "" } ]

/-- An already-posted balanced sale transaction. -/
def samplePostedTx : Transaction :=
  { id := 1, journal := "GENERAL", tx_date := 0, memo := "Sale", posted := true,
    lines :=
      [ { account := cashAccount, debit := 12500, credit := 0,
          description := "Cash sale", currency := "EUR", base_amount := 12500 },
        { account := revenueAccount, debit := 0, credit := 12500,
          description := "Revenue", currency := "EUR", base_amount := -12500 } ] }

/-- An unposted draft transaction. -/
def sampleDraftTx : Transaction :=
  { id := 2, journal := "GENERAL", tx_date := 0, memo := "Draft", posted := false,
    lines :=
      [ { account := cashAccount, debit := 500, credit := 0,
          description := "", currency := "EUR", base_amount := 500 },
        { account := revenueAccount, debit := 0, credit := 500,
          description := "", currency := "EUR", base_amount := -500 } ] }

/-- A store holding the posted sale and the draft. -/
def sampleLedger : Ledger := { transactions := [samplePostedTx, sampleDraftTx], nextId := 3 }

/-! ### Reporting engine (`accounting/reporting.py`)

`str(+display)` rendering of amounts is presentation only; amounts stay
integers (cents) here.  The Python accumulator is a dict keyed by account id
whose values keep insertion order; it is embedded as an association list of
`LineSum` records. -/

/-- The `LineSum` dataclass. -/
structure LineSum where
  account_id : Nat
  account_code : String
  account_name : String
  type : AccountType
  normal_debit : Bool
  amount_base : Int
  display : Int
deriving DecidableEq, Repr

/-- `_iter_lines`: entry lines of posted transactions dated `≤ end`, further
bounded below when `start` is given. -/
def _iter_lines (st : Ledger) (start? : Option Int) (endDate : Int) :
    List EntryLine :=
  ((st.transactions.filter (fun t => t.posted && t.tx_date ≤ endDate)).filter
    (fun t => match start? with
      | some s => s ≤ t.tx_date
      | none => true)).flatMap (·.lines)

/-- One iteration of the `_accumulate` loop: fetch (or create with zero) the
`LineSum` of the line's account and add `debit - credit` to its
`amount_base`. -/
def addLine (sums : List LineSum) (l : EntryLine) : List LineSum :=
  if sums.any (fun s => s.account_id == l.account.id) then
    sums.map (fun s =>
      if s.account_id == l.account.id then
        { s with amount_base := s.amount_base + (l.debit - l.credit) }
      else s)
  else
    sums ++ [{ account_id := l.account.id, account_code := l.account.code,
               account_name := l.account.name, type := l.account.type,
               normal_debit := l.account.normal_debit,
               amount_base := l.debit - l.credit, display := 0 }]

/-- The final pass of `_accumulate`: `display = amount_base if normal_debit
else -amount_base`. -/
def setDisplay (s : LineSum) : LineSum :=
  { s with display := if s.normal_debit then s.amount_base else -s.amount_base }

/-- `_accumulate`: fold the lines into per-account sums, then compute each
`display` from the account's normal balance. -/
def _accumulate (lines : List EntryLine) : List LineSum :=
  (lines.foldl addLine []).map setDisplay

/-- `sum((s.display for s in ...), Decimal("0"))`. -/
def sumDisplay (ss : List LineSum) : Int :=
  (ss.map (·.display)).sum

/-- Sum of the raw `amount_base` fields of a list of `LineSum`s. -/
def sumAmountBase (ss : List LineSum) : Int :=
  (ss.map (·.amount_base)).sum

/-- A rendered report row `{code, name, amount}`. -/
structure ReportRow where
  code : String
  name : String
  amount : Int
deriving DecidableEq, Repr

/-- `{"code": s.account_code, "name": s.account_name, "amount": s.display}`. -/
def rowOf (s : LineSum) : ReportRow :=
  { code := s.account_code, name := s.account_name, amount := s.display }

/-- `sorted(..., key=lambda x: x.account_code)`. -/
def sortByCode (ss : List LineSum) : List LineSum :=
  ss.mergeSort (fun a b => a.account_code ≤ b.account_code)

/-- The balance sheet result: section rows plus the totals dict. -/
structure BalanceSheet where
  as_of : Int
  assets : List ReportRow
  liabilities : List ReportRow
  equity : List ReportRow
  total_assets : Int
  total_liabilities_plus_equity : Int
  balanced : Bool
deriving Repr

/-- `balance_sheet(as_of=...)`: cumulative accumulation of posted lines up to
`as_of`; Asset/Liability/Equity sections; retained earnings = cumulative
income display total − expense display total folded into equity as a
synthetic line; `balanced = (assets == liabilities + equity)`. -/
def balance_sheet (st : Ledger) (as_of : Int) : BalanceSheet :=
  let cumulative := _accumulate (_iter_lines st none as_of)
  let assets := cumulative.filter (fun s => s.type == AccountType.ASSET)
  let liabs := cumulative.filter (fun s => s.type == AccountType.LIAB)
  let equity := cumulative.filter (fun s => s.type == AccountType.EQTY)
  let inc := cumulative.filter (fun s => s.type == AccountType.INC)
  let exp := cumulative.filter (fun s => s.type == AccountType.EXP)
  let retained := sumDisplay inc - sumDisplay exp
  let total_assets := sumDisplay assets
  let total_liabs := sumDisplay liabs
  let total_equity := sumDisplay equity + retained
  { as_of := as_of,
    assets := (sortByCode assets).map rowOf,
    liabilities := (sortByCode liabs).map rowOf,
    equity := (sortByCode equity).map rowOf ++
      [{ code := "RETAINED", name := "Retained Earnings", amount := retained }],
    total_assets := total_assets,
    total_liabilities_plus_equity := total_liabs + total_equity,
    balanced := total_assets == total_liabs + total_equity }

/-! ### Measurement helpers and fixture data for the reporting claims -/

/-- Total raw signed amount, `Σ (debit − credit)`, of a list of lines. -/
def sumBase (lines : List EntryLine) : Int :=
  (lines.map (fun l => l.debit - l.credit)).sum

/-- `Σ (debit − credit)` restricted to the lines of one account id. -/
def fiberBase (lines : List EntryLine) (k : Nat) : Int :=
  sumBase (lines.filter (fun l => l.account.id == k))

/-- Account ids of an accumulator state, in insertion order (the dict
keys). -/
def keysOf (ss : List LineSum) : List Nat :=
  ss.map (·.account_id)

/-- The dict-building fold of `_accumulate`, before `display` is written. -/
def accumulateSums (lines : List EntryLine) : List LineSum :=
  lines.foldl addLine []

/-- `Σ (debit − credit)` restricted to the lines of accounts of one type. -/
def typedLineBase (lines : List EntryLine) (T : AccountType) : Int :=
  sumBase (lines.filter (fun l => l.account.type == T))

/-- Foreign-key integrity of the joined account rows: two lines with the
same account id reference the same account row (guaranteed by the database,
where `account` is a single row referenced by id). -/
def consistentAccounts (lines : List EntryLine) : Prop :=
  ∀ l1 ∈ lines, ∀ l2 ∈ lines, l1.account.id = l2.account.id →
    l1.account = l2.account

/-- The conventional normal-balance flags for the five standard account
types (Assets/Expenses debit-normal, Liabilities/Equity/Income
credit-normal), as `seed_coa` assigns them. -/
def conventionalFlags (a : Account) : Prop :=
  (a.type = .ASSET → a.normal_debit = true)
  ∧ (a.type = .LIAB → a.normal_debit = false)
  ∧ (a.type = .EQTY → a.normal_debit = false)
  ∧ (a.type = .INC → a.normal_debit = false)
  ∧ (a.type = .EXP → a.normal_debit = true)

/-- One of the five standard (non-contra) account types. -/
def standardType (T : AccountType) : Prop :=
  T = .ASSET ∨ T = .LIAB ∨ T = .EQTY ∨ T = .INC ∨ T = .EXP

/-- A credit-normal ContraAsset account. -/
def depreciationAccount : Account :=
  { id := 3, code := "1500", name := "Accumulated Depreciation",
    type := .C_ASSET, normal_debit := false, is_active := true }

/-- A debit-normal Expense account. -/
def depExpenseAccount : Account :=
  { id := 4, code := "5000", name := "Depreciation Expense", type := .EXP,
    normal_debit := true, is_active := true }

/-- A posted, balanced depreciation transaction touching the contra-asset
account. -/
def contraTx : Transaction :=
  { id := 1, journal := "GENERAL", tx_date := 0, memo := "Depreciation",
    posted := true,
    lines :=
      [ { account := depExpenseAccount, debit := 10000, credit := 0,
          description := "", currency := "EUR", base_amount := 10000 },
        { account := depreciationAccount, debit := 0, credit := 10000,
          description := "", currency := "EUR", base_amount := -10000 } ] }

/-- A fixture whose only transaction is posted, balanced, and uses a
contra-asset account. -/
def contraLedger : Ledger := { transactions := [contraTx], nextId := 2 }

/-- The accumulated `LineSum` of `cashAccount` in the sample sale. -/
def cashSum : LineSum :=
  { account_id := 1, account_code := "1000", account_name := "Cash",
    type := .ASSET, normal_debit := true, amount_base := 12500,
    display := 12500 }

/-- The accumulated `LineSum` of `revenueAccount` in the sample sale. -/
def revenueSum : LineSum :=
  { account_id := 2, account_code := "4000", account_name := "Revenue",
    type := .INC, normal_debit := false, amount_base := -12500,
    display := 12500 }

/-! ### Basic lemmas about the posting pipeline -/

theorem insertLine_of_checks (l : EntryLine)
    (h1 : checkDebitXorCredit l.debit l.credit = true)
    (h2 : checkNonNegative l.debit l.credit = true) :
    insertLine l = .ok l.save := by
  simp [insertLine, EntryLine.save] at *
  simp [h1, h2]

theorem insertLines_map_save (ls : List LineInput)
    (h : ∀ li ∈ ls, checkDebitXorCredit li.debit li.credit = true ∧
          checkNonNegative li.debit li.credit = true) :
    insertLines ls = .ok (ls.map (fun li => (mkLine li).save)) := by
  induction ls with
  | nil => rfl
  | cons li rest ih =>
    have hli := h li (List.mem_cons_self li rest)
    have hrest := ih (fun x hx => h x (List.mem_cons_of_mem li hx))
    have : insertLine (mkLine li) = .ok (mkLine li).save :=
      insertLine_of_checks _ hli.1 hli.2
    simp [insertLines, this, hrest]

theorem insertLines_shape (ls : List LineInput) (els : List EntryLine)
    (h : insertLines ls = .ok els) :
    els = ls.map (fun li => (mkLine li).save) := by
  induction ls generalizing els with
  | nil => simpa [insertLines] using h.symm
  | cons li rest ih =>
    simp only [insertLines] at h
    cases hl : insertLine (mkLine li) with
    | error e => rw [hl] at h; exact absurd h (by simp)
    | ok l =>
      rw [hl] at h
      cases hr : insertLines rest with
      | error e => rw [hr] at h; exact absurd h (by simp)
      | ok ls' =>
        rw [hr] at h
        have hsf : l = (mkLine li).save := by
          by_cases h1 : checkDebitXorCredit (mkLine li).save.debit (mkLine li).save.credit
          · by_cases h2 : checkNonNegative (mkLine li).save.debit (mkLine li).save.credit
            · simpa [insertLine, h1, h2] using hl.symm
            · simp [insertLine, h1, h2] at hl
          · simp [insertLine, h1] at hl
        simp only [Except.ok.injEq] at h
        subst h
        simp [List.map_cons, ← hsf, ih ls' hr]

theorem sumDebits_insert (ls : List LineInput) :
    sumDebits (ls.map (fun li => (mkLine li).save)) = (ls.map (·.debit)).sum := by
  simp [sumDebits, List.map_map]
  rfl

theorem sumCredits_insert (ls : List LineInput) :
    sumCredits (ls.map (fun li => (mkLine li).save)) = (ls.map (·.credit)).sum := by
  simp [sumCredits, List.map_map]
  rfl

theorem clean_ok_iff (tx : Transaction) :
    Transaction.clean tx = .ok () ↔
      2 ≤ tx.lines.length ∧ sumDebits tx.lines = sumCredits tx.lines := by
  unfold Transaction.clean
  split_ifs with h1 h2
  · simp; omega
  · simp; intro h; omega
  · simp only [not_not] at h2
    simp only [true_iff]
    exact ⟨by omega, h2⟩

theorem clean_no_already_posted (tx : Transaction) :
    Transaction.clean tx ≠ .error .AlreadyPosted := by
  unfold Transaction.clean
  split_ifs <;> simp

theorem post_of_clean_ok (tx : Transaction) (h : Transaction.clean tx = .ok ()) :
    Transaction.post tx = .ok { tx with posted := true } := by
  simp [Transaction.post, Transaction.full_clean, h]

theorem create_and_post_cases (st : Ledger) (j : String) (d : Int) (m : String)
    (ls : List LineInput) :
    (∃ e, create_and_post_transaction st j d m ls = (.error e, st)) ∨
      (create_and_post_transaction st j d m ls =
        (.ok (newPostedTx st j d m ls),
         { transactions := st.transactions ++ [newPostedTx st j d m ls],
           nextId := st.nextId + 1 }) ∧
        2 ≤ (newPostedTx st j d m ls).lines.length ∧
        sumDebits (newPostedTx st j d m ls).lines =
          sumCredits (newPostedTx st j d m ls).lines) := by
  cases hins : insertLines ls with
  | error e => exact .inl ⟨e, by simp [create_and_post_transaction, hins]⟩
  | ok els =>
    have hels := insertLines_shape ls els hins
    subst hels
    cases hcl : Transaction.full_clean
        { id := st.nextId, journal := j, tx_date := d, memo := m, posted := false,
          lines := ls.map (fun li => (mkLine li).save) } with
    | error e => exact .inl ⟨e, by simp [create_and_post_transaction, hins, hcl]⟩
    | ok u =>
      cases u
      have hco : Transaction.clean
          { id := st.nextId, journal := j, tx_date := d, memo := m, posted := false,
            lines := ls.map (fun li => (mkLine li).save) } = .ok () := hcl
      have hpost := post_of_clean_ok _ hco
      have hinv := (clean_ok_iff _).mp hco
      refine .inr ⟨?_, ?_, ?_⟩
      · simp [create_and_post_transaction, hins, hcl, hpost, newPostedTx]
      · simpa [newPostedTx] using hinv.1
      · simpa [newPostedTx, sumDebits, sumCredits] using hinv.2

theorem create_and_post_ok (st : Ledger) (j : String) (d : Int) (m : String)
    (ls : List LineInput)
    (hchecks : ∀ li ∈ ls, checkDebitXorCredit li.debit li.credit = true ∧
          checkNonNegative li.debit li.credit = true)
    (hlen : 2 ≤ ls.length)
    (hbal : (ls.map (·.debit)).sum = (ls.map (·.credit)).sum) :
    create_and_post_transaction st j d m ls =
      (.ok (newPostedTx st j d m ls),
       { transactions := st.transactions ++ [newPostedTx st j d m ls],
         nextId := st.nextId + 1 }) := by
  have hins := insertLines_map_save ls hchecks
  have hclean : Transaction.clean
      { id := st.nextId, journal := j, tx_date := d, memo := m, posted := false,
        lines := ls.map (fun li => (mkLine li).save) } = .ok () := by
    rw [clean_ok_iff]
    constructor
    · simpa using hlen
    · rw [sumDebits_insert, sumCredits_insert]; exact hbal
  have hpost := post_of_clean_ok _ hclean
  simp [create_and_post_transaction, hins, Transaction.full_clean, hclean, hpost,
    newPostedTx]

theorem full_clean_eq (l : EntryLine) :
    EntryLine.full_clean l =
      if l.debit = 0 ∧ l.credit = 0 then .error .DebitCreditBothZero
      else if 0 < l.debit ∧ 0 < l.credit then .error .DebitCreditBothPositive
      else if l.debit < 0 ∨ l.credit < 0 then .error .NegativeAmount
      else .ok { l with base_amount := l.debit - l.credit } := by
  unfold EntryLine.full_clean EntryLine.clean checkDebitXorCredit checkNonNegative
  by_cases h0 : l.debit = 0 ∧ l.credit = 0
  · simp [h0]
  · simp only [if_neg h0]
    by_cases h1 : 0 < l.debit ∧ 0 < l.credit
    · simp [h1.1, h1.2]
    · have hb1 : (decide (l.debit > 0) && decide (l.credit > 0)) = false := by
        rcases Classical.not_and_iff_or_not_not.mp h1 with h | h <;> simp [h]
      by_cases h2 : l.debit < 0 ∨ l.credit < 0
      · have hb2 : (decide (l.debit ≥ 0) && decide (l.credit ≥ 0)) = false := by
          rcases h2 with h | h <;> simp <;> omega
        simp [hb1, hb2, h1, h2]
      · have hb2 : (decide (l.debit ≥ 0) && decide (l.credit ≥ 0)) = true := by
          simp; omega
        simp [hb1, hb2, h1, h2]

/-! ### Claim theorems: validation and posting -/

/-- Claim C5: the entry line validator (`EntryLine.clean` plus the
`debit_xor_credit` and `non_negative_amounts` check constraints, i.e.
`EntryLine.full_clean`) rejects a candidate line exactly when both fields are
zero (`DebitCreditBothZero`), both are strictly positive
(`DebitCreditBothPositive`), or either is negative (`NegativeAmount`), and
accepts exactly the lines with one strictly positive side and the other
zero. -/
theorem entry_line_validator_cases (l : EntryLine) :
    (EntryLine.full_clean l = .error .DebitCreditBothZero ↔
      (l.debit = 0 ∧ l.credit = 0))
    ∧ (EntryLine.full_clean l = .error .DebitCreditBothPositive ↔
      (0 < l.debit ∧ 0 < l.credit))
    ∧ (EntryLine.full_clean l = .error .NegativeAmount ↔
      (l.debit < 0 ∨ l.credit < 0))
    ∧ ((∃ l', EntryLine.full_clean l = .ok l') ↔
      ((0 < l.debit ∧ l.credit = 0) ∨ (0 < l.credit ∧ l.debit = 0))) := by
  rw [full_clean_eq]
  split_ifs with h0 h1 h2 <;>
    refine ⟨by simp; omega, by simp; omega, by simp; omega, ?_⟩ <;> simp <;> omega

/-- Claim C7: `EntryLine.save` recomputes `base_amount = debit − credit` on
every persisted write, overwriting any caller-supplied value (`b`), so the
stored row never disagrees with its debit/credit fields. -/
theorem base_amount_recomputed_on_save (l : EntryLine) (b : Int) :
    EntryLine.save { l with base_amount := b } =
      { l with base_amount := l.debit - l.credit } := by
  simp [EntryLine.save]

/-- Claim C6 (failing input): `create_and_post_transaction` never runs the
entry-line validator (`objects.create` does not call `full_clean`, and the
check constraints do not cover the both-zero case), so a candidate set of two
`debit = credit = 0` lines — each rejected by `EntryLine.full_clean` — is
created and posted successfully. -/
theorem create_and_post_zero_line_bug :
    (create_and_post_transaction emptyLedger "GENERAL" 0 "zero" zeroLineInputs).1 =
      .ok { id := 1, journal := "GENERAL", tx_date := 0, memo := "zero", posted := true,
            lines :=
              [ { account := cashAccount, debit := 0, credit := 0,
                  description := "", currency := "EUR", base_amount := 0 },
                { account := revenueAccount, debit := 0, credit := 0,
                  description := "", currency := "EUR", base_amount := 0 } ] }
    ∧ (create_and_post_transaction emptyLedger "GENERAL" 0 "zero" zeroLineInputs).2.transactions.length = 1
    ∧ EntryLine.full_clean
        { account := cashAccount, debit := 0, credit := 0,
          description := "", currency := "EUR", base_amount := 0 } =
        .error .DebitCreditBothZero := by
  refine ⟨rfl, by decide, rfl⟩

/-- Claim C2 (counterexample): `Transaction.post` has no already-posted
guard — re-posting the posted sale succeeds as a no-op instead of failing
with `AlreadyPosted`, and the admin bulk-post action silently skips it. -/
theorem post_already_posted_counterexample :
    samplePostedTx.posted = true
    ∧ Transaction.post samplePostedTx = .ok samplePostedTx
    ∧ action_post_tx samplePostedTx = (.skipped, samplePostedTx) := by
  refine ⟨rfl, rfl, by decide⟩

/-- Claim C2 (amended): for a transaction whose `posted` flag is set, `post`
never fails with `AlreadyPosted`; if the invariants still hold it succeeds
and returns the transaction unchanged (a silent no-op), and the admin
post action skips it without surfacing any failure. -/
theorem post_already_posted_noop (tx : Transaction) (hp : tx.posted = true) :
    (∀ e, Transaction.post tx = .error e → e ≠ .AlreadyPosted)
    ∧ (Transaction.full_clean tx = .ok () → Transaction.post tx = .ok tx)
    ∧ action_post_tx tx = (.skipped, tx) := by
  refine ⟨?_, ?_, ?_⟩
  · intro e he hcontra
    subst hcontra
    unfold Transaction.post Transaction.full_clean at he
    cases hcl : Transaction.clean tx with
    | error e' =>
      rw [hcl] at he
      simp only [Except.error.injEq] at he
      exact clean_no_already_posted tx (he ▸ hcl)
    | ok u => rw [hcl] at he; exact absurd he (by simp)
  · intro hok
    have hpost := post_of_clean_ok tx hok
    rw [hpost]
    cases tx
    simp_all
  · simp [action_post_tx, hp]

/-- Claim C2 (witness): the amended statement applied to the concrete posted
sale transaction. -/
theorem post_already_posted_noop_witness :
    Transaction.post samplePostedTx = .ok samplePostedTx
    ∧ action_post_tx samplePostedTx = (.skipped, samplePostedTx) := by
  have h := post_already_posted_noop samplePostedTx rfl
  exact ⟨h.2.1 rfl, h.2.2⟩

/-- Claim C9: the admin delete path refuses a posted transaction
(`PostedTransactionImmutable`) leaving the store — the transaction with its
nested lines — untouched; an unposted transaction is removed together with
its lines as a unit. -/
theorem delete_posted_immutable (st : Ledger) (txId : Nat) (tx : Transaction)
    (hfind : st.transactions.find? (fun t => t.id = txId) = some tx) :
    (tx.posted = true →
      deleteTransaction st txId = (.error .PostedTransactionImmutable, st)
      ∧ tx ∈ st.transactions)
    ∧ (tx.posted = false →
      (deleteTransaction st txId).1 = .ok ()
      ∧ (deleteTransaction st txId).2.transactions =
          st.transactions.filter (fun t => t.id ≠ txId)
      ∧ ∀ t ∈ (deleteTransaction st txId).2.transactions, t.id ≠ txId) := by
  constructor
  · intro hp
    refine ⟨?_, List.mem_of_find?_eq_some hfind⟩
    simp [deleteTransaction, hfind, hp]
  · intro hp
    have hdel : deleteTransaction st txId =
        (.ok (), { st with transactions := st.transactions.filter (fun t => t.id ≠ txId) }) := by
      simp [deleteTransaction, hfind, hp]
    refine ⟨by rw [hdel], by rw [hdel], ?_⟩
    intro t ht
    rw [hdel] at ht
    simp only [List.mem_filter] at ht
    simpa using ht.2

/-- Claim C9 (witness): deleting the posted sale is refused and the store is
unchanged; deleting the draft removes it and its lines. -/
theorem delete_posted_immutable_witness :
    deleteTransaction sampleLedger 1 = (.error .PostedTransactionImmutable, sampleLedger)
    ∧ (deleteTransaction sampleLedger 2).1 = .ok ()
    ∧ (deleteTransaction sampleLedger 2).2.transactions = [samplePostedTx] := by
  have h1 := delete_posted_immutable sampleLedger 1 samplePostedTx (by decide)
  have h2 := delete_posted_immutable sampleLedger 2 sampleDraftTx (by decide)
  refine ⟨(h1.1 rfl).1, (h2.2 rfl).1, ?_⟩
  rw [(h2.2 rfl).2.1]
  decide

/-- Claim C1: `create_and_post_transaction` posts only a transaction with at
least two lines and exactly balanced debit and credit sums, and on any
validation failure returns the rejection with the store unchanged — no
transaction row and no entry lines persist. -/
theorem create_and_post_atomic_validation (st : Ledger) (j : String) (d : Int)
    (m : String) (ls : List LineInput) :
    (∀ e, (create_and_post_transaction st j d m ls).1 = .error e →
      (create_and_post_transaction st j d m ls).2 = st)
    ∧ (∀ tx, (create_and_post_transaction st j d m ls).1 = .ok tx →
      tx.posted = true ∧ 2 ≤ tx.lines.length ∧
      sumDebits tx.lines = sumCredits tx.lines ∧
      (create_and_post_transaction st j d m ls).2.transactions =
        st.transactions ++ [tx]) := by
  rcases create_and_post_cases st j d m ls with ⟨e, he⟩ | ⟨heq, hlen, hbal⟩
  · constructor
    · intro e' h
      rw [he]
    · intro tx h
      rw [he] at h
      exact absurd h (by simp)
  · constructor
    · intro e' h
      rw [heq] at h
      exact absurd h (by simp)
    · intro tx h
      rw [heq] at h
      simp only [Except.ok.injEq] at h
      subst h
      refine ⟨rfl, hlen, hbal, ?_⟩
      rw [heq]

/-- Claim C1 (witness): the 10.00/9.99 mismatched pair leaves the store
unchanged; the balanced 125.00 sale is appended as a posted transaction. -/
theorem create_and_post_atomic_validation_witness :
    (create_and_post_transaction emptyLedger "GENERAL" 0 "Bad" mismatchedInputs).2 =
      emptyLedger
    ∧ (newPostedTx emptyLedger "GENERAL" 0 "Sale" saleInputs).posted = true
    ∧ (create_and_post_transaction emptyLedger "GENERAL" 0 "Sale" saleInputs).2.transactions =
        emptyLedger.transactions ++ [newPostedTx emptyLedger "GENERAL" 0 "Sale" saleInputs] := by
  have hbad := create_and_post_atomic_validation emptyLedger "GENERAL" 0 "Bad" mismatchedInputs
  have hgood := create_and_post_atomic_validation emptyLedger "GENERAL" 0 "Sale" saleInputs
  refine ⟨hbad.1 (.UnbalancedTransaction 1000 999) rfl, ?_, ?_⟩
  · exact (hgood.2 (newPostedTx emptyLedger "GENERAL" 0 "Sale" saleInputs) rfl).1
  · exact (hgood.2 (newPostedTx emptyLedger "GENERAL" 0 "Sale" saleInputs) rfl).2.2.2

/-- Claim C3: reversing a posted transaction (whose rows satisfy the stored
invariants) constructs and posts, through `create_and_post_transaction`
itself — the same validation path as any other post — a new transaction in
the same journal whose lines are the exact debit/credit swap of the original
lines with reversal-annotated descriptions, while the source transaction
remains in the store unchanged (and hence still posted). -/
theorem reverse_transaction_correct (st : Ledger) (tx : Transaction)
    (hp : tx.posted = true)
    (hc : ∀ l ∈ tx.lines, checkDebitXorCredit l.debit l.credit = true ∧
          checkNonNegative l.debit l.credit = true)
    (hlen : 2 ≤ tx.lines.length)
    (hbal : sumDebits tx.lines = sumCredits tx.lines) :
    ∃ rev,
      action_reverse_transaction st tx =
        (.ok rev, { transactions := st.transactions ++ [rev], nextId := st.nextId + 1 })
      ∧ rev.posted = true
      ∧ rev.journal = tx.journal
      ∧ rev.tx_date = tx.tx_date
      ∧ rev.lines = tx.lines.map (fun l =>
          { account := l.account, debit := l.credit, credit := l.debit,
            description := "Reversal of Tx " ++ toString tx.id ++ ": " ++ l.description,
            currency := "EUR", base_amount := l.credit - l.debit })
      ∧ (tx ∈ st.transactions → tx ∈ (action_reverse_transaction st tx).2.transactions)
      ∧ action_reverse_transaction st tx =
          create_and_post_transaction st tx.journal tx.tx_date
            ("Reversal of Tx " ++ toString tx.id)
            (tx.lines.map (reverseLineInput tx.id)) := by
  have hsame : action_reverse_transaction st tx =
      create_and_post_transaction st tx.journal tx.tx_date
        ("Reversal of Tx " ++ toString tx.id)
        (tx.lines.map (reverseLineInput tx.id)) := by
    simp [action_reverse_transaction, hp]
  have hchecks : ∀ li ∈ tx.lines.map (reverseLineInput tx.id),
      checkDebitXorCredit li.debit li.credit = true ∧
      checkNonNegative li.debit li.credit = true := by
    intro li hli
    rcases List.mem_map.mp hli with ⟨l, hl, hrev⟩
    subst hrev
    refine ⟨?_, ?_⟩
    · simpa [checkDebitXorCredit, reverseLineInput, Bool.and_comm] using (hc l hl).1
    · simpa [checkNonNegative, reverseLineInput, Bool.and_comm] using (hc l hl).2
  have hlen' : 2 ≤ (tx.lines.map (reverseLineInput tx.id)).length := by
    simpa using hlen
  have hbal' : ((tx.lines.map (reverseLineInput tx.id)).map (·.debit)).sum =
      ((tx.lines.map (reverseLineInput tx.id)).map (·.credit)).sum := by
    rw [List.map_map, List.map_map]
    have h1 : ((·.debit) ∘ reverseLineInput tx.id : EntryLine → Int) = (·.credit) := rfl
    have h2 : ((·.credit) ∘ reverseLineInput tx.id : EntryLine → Int) = (·.debit) := rfl
    rw [h1, h2]
    exact (hbal).symm
  have hok := create_and_post_ok st tx.journal tx.tx_date
    ("Reversal of Tx " ++ toString tx.id) (tx.lines.map (reverseLineInput tx.id))
    hchecks hlen' hbal'
  refine ⟨newPostedTx st tx.journal tx.tx_date ("Reversal of Tx " ++ toString tx.id)
    (tx.lines.map (reverseLineInput tx.id)), ?_, rfl, rfl, rfl, ?_, ?_, hsame⟩
  · rw [hsame, hok]
  · show (tx.lines.map (reverseLineInput tx.id)).map (fun li => (mkLine li).save) = _
    rw [List.map_map]
    rfl
  · intro hmem
    rw [hsame, hok]
    exact List.mem_append_left _ hmem

/-- Claim C3 (witness): reversing the concrete posted sale succeeds and the
original transaction is still present in the resulting store. -/
theorem reverse_transaction_correct_witness :
    (action_reverse_transaction sampleLedger samplePostedTx).1.isOk = true
    ∧ samplePostedTx ∈ (action_reverse_transaction sampleLedger samplePostedTx).2.transactions := by
  obtain ⟨rev, h1, _, _, _, _, hmem, _⟩ :=
    reverse_transaction_correct sampleLedger samplePostedTx rfl (by decide) (by decide) rfl
  constructor
  · rw [h1]
    rfl
  · exact hmem (by decide)

/-! ### Lemmas about the `_accumulate` fold -/

theorem accumulateSums_append_singleton (lines : List EntryLine) (l : EntryLine) :
    accumulateSums (lines ++ [l]) = addLine (accumulateSums lines) l := by
  simp [accumulateSums, List.foldl_append]

theorem sumBase_append (l1 l2 : List EntryLine) :
    sumBase (l1 ++ l2) = sumBase l1 + sumBase l2 := by
  simp [sumBase]

theorem fiberBase_append (l1 l2 : List EntryLine) (k : Nat) :
    fiberBase (l1 ++ l2) k = fiberBase l1 k + fiberBase l2 k := by
  simp [fiberBase, List.filter_append, sumBase]

theorem fiberBase_singleton (l : EntryLine) (k : Nat) :
    fiberBase [l] k = if l.account.id = k then l.debit - l.credit else 0 := by
  by_cases h : l.account.id = k
  · simp [fiberBase, sumBase, List.filter, beq_iff_eq, h]
  · have hb : (l.account.id == k) = false := by simpa using h
    simp [fiberBase, sumBase, List.filter, hb, h]

theorem fiberBase_of_not_mem (lines : List EntryLine) (k : Nat)
    (h : k ∉ lines.map (fun l => l.account.id)) : fiberBase lines k = 0 := by
  have hnil : lines.filter (fun l => l.account.id == k) = [] := by
    rw [List.filter_eq_nil_iff]
    intro a ha hak
    exact h (List.mem_map.mpr ⟨a, ha, by simpa using hak⟩)
  simp [fiberBase, hnil, sumBase]

theorem accumulateSums_spec (lines : List EntryLine) :
    (keysOf (accumulateSums lines)).Nodup
    ∧ (∀ k, k ∈ keysOf (accumulateSums lines) ↔
        k ∈ lines.map (fun l => l.account.id))
    ∧ (∀ s ∈ accumulateSums lines,
        s.amount_base = fiberBase lines s.account_id
        ∧ ∃ l ∈ lines, l.account.id = s.account_id
            ∧ s.account_code = l.account.code ∧ s.account_name = l.account.name
            ∧ s.type = l.account.type ∧ s.normal_debit = l.account.normal_debit) := by
  induction lines using List.reverseRecOn with
  | nil =>
    refine ⟨by simp [accumulateSums, keysOf], by simp [accumulateSums, keysOf],
      by simp [accumulateSums]⟩
  | append_singleton ls l ih =>
    obtain ⟨ihnd, ihkeys, ihmem⟩ := ih
    rw [accumulateSums_append_singleton]
    by_cases hpre :
        (accumulateSums ls).any (fun s => s.account_id == l.account.id) = true
    · -- the account already has an entry: update it in place
      have hkin : l.account.id ∈ keysOf (accumulateSums ls) := by
        obtain ⟨s, hs, hsk⟩ := List.any_eq_true.mp hpre
        exact List.mem_map.mpr ⟨s, hs, by simpa using hsk⟩
      have haddeq : addLine (accumulateSums ls) l =
          (accumulateSums ls).map (fun s =>
            if s.account_id == l.account.id then
              { s with amount_base := s.amount_base + (l.debit - l.credit) }
            else s) := by
        simp [addLine, hpre]
      have hid : ∀ s : LineSum,
          ((fun s =>
            if s.account_id == l.account.id then
              { s with amount_base := s.amount_base + (l.debit - l.credit) }
            else s) s).account_id = s.account_id := by
        intro s
        by_cases h : s.account_id == l.account.id <;> simp [h]
      have hkeyeq : keysOf (addLine (accumulateSums ls) l) =
          keysOf (accumulateSums ls) := by
        rw [haddeq]
        simp only [keysOf, List.map_map]
        exact List.map_congr_left (fun s _ => hid s)
      refine ⟨by rw [hkeyeq]; exact ihnd, ?_, ?_⟩
      · intro k
        rw [hkeyeq, ihkeys]
        simp only [List.map_append, List.mem_append, List.map_cons,
          List.map_nil, List.mem_singleton]
        constructor
        · exact fun h => .inl h
        · rintro (h | rfl)
          · exact h
          · exact (ihkeys _).mp hkin
      · intro s' hs'
        rw [haddeq] at hs'
        obtain ⟨s, hs, rfl⟩ := List.mem_map.mp hs'
        obtain ⟨hamount, l0, hl0, hl0id, hcode, hname, htype, hnd⟩ := ihmem s hs
        by_cases hk : s.account_id = l.account.id
        · rw [if_pos (by simpa using hk)]
          refine ⟨?_, l0, List.mem_append_left _ hl0, hl0id, hcode, hname, htype, hnd⟩
          show s.amount_base + (l.debit - l.credit) = _
          rw [fiberBase_append, fiberBase_singleton, hamount,
            if_pos hk.symm]
        · rw [if_neg (by simpa using hk)]
          refine ⟨?_, l0, List.mem_append_left _ hl0, hl0id, hcode, hname, htype, hnd⟩
          rw [fiberBase_append, fiberBase_singleton,
            if_neg (fun h => hk h.symm), hamount]
          ring
    · -- first line of this account: append a fresh entry
      have hnotin : l.account.id ∉ keysOf (accumulateSums ls) := by
        intro hmem
        obtain ⟨s, hs, hsk⟩ := List.mem_map.mp hmem
        exact hpre (List.any_eq_true.mpr ⟨s, hs, by simpa using hsk⟩)
      have haddeq : addLine (accumulateSums ls) l =
          accumulateSums ls ++
            [{ account_id := l.account.id, account_code := l.account.code,
               account_name := l.account.name, type := l.account.type,
               normal_debit := l.account.normal_debit,
               amount_base := l.debit - l.credit, display := 0 }] := by
        simp [addLine, hpre]
      have hkeyeq : keysOf (addLine (accumulateSums ls) l) =
          keysOf (accumulateSums ls) ++ [l.account.id] := by
        rw [haddeq]; simp [keysOf]
      refine ⟨?_, ?_, ?_⟩
      · rw [hkeyeq, List.nodup_append]
        exact ⟨ihnd, List.nodup_singleton _,
          fun a ha hb => hnotin (by rwa [List.mem_singleton.mp hb] at ha)⟩
      · intro k
        rw [hkeyeq]
        simp only [List.mem_append, List.mem_singleton, List.map_append,
          List.map_cons, List.map_nil, ihkeys]
      · intro s' hs'
        rw [haddeq] at hs'
        rcases List.mem_append.mp hs' with hold | hnew
        · obtain ⟨hamount, l0, hl0, hl0id, hcode, hname, htype, hnd⟩ := ihmem s' hold
          refine ⟨?_, l0, List.mem_append_left _ hl0, hl0id, hcode, hname, htype, hnd⟩
          have hne : l.account.id ≠ s'.account_id := by
            intro h
            exact hnotin (h ▸ List.mem_map.mpr ⟨s', hold, rfl⟩)
          rw [fiberBase_append, fiberBase_singleton, if_neg hne, hamount]
          ring
        · rw [List.mem_singleton.mp hnew]
          refine ⟨?_, l, List.mem_append_right _ (List.mem_singleton.mpr rfl),
            rfl, rfl, rfl, rfl, rfl⟩
          show l.debit - l.credit = _
          rw [fiberBase_append, fiberBase_singleton, if_pos rfl,
            fiberBase_of_not_mem ls l.account.id
              (fun h => hnotin ((ihkeys _).mpr h))]
          ring

theorem sum_map_add_int {A : Type} (K : List A) (f g : A → Int) :
    (K.map (fun x => f x + g x)).sum = (K.map f).sum + (K.map g).sum := by
  induction K with
  | nil => simp
  | cons x K0 ih => simp [ih]; ring

theorem sum_ite_key (K : List Nat) (k : Nat) (a : Int) (hnd : K.Nodup)
    (hk : k ∈ K) :
    (K.map (fun x => if k = x then a else 0)).sum = a := by
  induction K with
  | nil => cases hk
  | cons x K0 ih =>
    rcases List.mem_cons.mp hk with rfl | hk0
    · simp only [List.map_cons, List.sum_cons]
      have hz : (K0.map (fun y => if k = y then a else (0 : Int))).sum = 0 := by
        apply List.sum_eq_zero
        intro v hv
        obtain ⟨y, hy, rfl⟩ := List.mem_map.mp hv
        rw [if_neg]
        rintro rfl
        exact (List.nodup_cons.mp hnd).1 hy
      rw [hz]; simp
    · have hx : k ≠ x := by
        rintro rfl
        exact (List.nodup_cons.mp hnd).1 hk0
      simp only [List.map_cons, List.sum_cons, if_neg hx]
      rw [ih (List.nodup_cons.mp hnd).2 hk0]; ring

theorem fiberwise_sum (lines : List EntryLine) (K : List Nat) (hnd : K.Nodup)
    (hcov : ∀ l ∈ lines, l.account.id ∈ K) :
    (K.map (fiberBase lines)).sum = sumBase lines := by
  induction lines with
  | nil =>
    have : ∀ k ∈ K, fiberBase [] k = 0 := by
      intro k _
      simp [fiberBase, sumBase]
    rw [show sumBase [] = 0 by simp [sumBase]]
    apply List.sum_eq_zero
    intro v hv
    obtain ⟨k, hk, rfl⟩ := List.mem_map.mp hv
    exact this k hk
  | cons l ls ih =>
    have hstep : ∀ k, fiberBase (l :: ls) k =
        (if l.account.id = k then l.debit - l.credit else 0) + fiberBase ls k := by
      intro k
      have : (l :: ls) = [l] ++ ls := rfl
      rw [this, fiberBase_append, fiberBase_singleton]
    calc (K.map (fiberBase (l :: ls))).sum
        = (K.map (fun k =>
            (if l.account.id = k then l.debit - l.credit else 0)
            + fiberBase ls k)).sum := by
          exact congrArg _ (List.map_congr_left (fun k _ => hstep k))
      _ = (K.map (fun k => if l.account.id = k then l.debit - l.credit else 0)).sum
          + (K.map (fiberBase ls)).sum := sum_map_add_int K _ _
      _ = (l.debit - l.credit) + sumBase ls := by
          rw [sum_ite_key K l.account.id _ hnd (hcov l (List.mem_cons_self l ls)),
            ih (fun x hx => hcov x (List.mem_cons_of_mem _ hx))]
      _ = sumBase (l :: ls) := by simp [sumBase]

theorem typed_amount_base (lines : List EntryLine) (T : AccountType)
    (hcons : consistentAccounts lines) :
    sumAmountBase ((accumulateSums lines).filter (fun s => s.type == T)) =
      typedLineBase lines T := by
  obtain ⟨hnd, hkeys, hmem⟩ := accumulateSums_spec lines
  have hfiber : ∀ s ∈ (accumulateSums lines).filter (fun s => s.type == T),
      s.amount_base =
        fiberBase (lines.filter (fun l => l.account.type == T)) s.account_id := by
    intro s hs
    have hsm := List.mem_filter.mp hs
    have hT : s.type = T := by simpa using hsm.2
    obtain ⟨hamount, l0, hl0, hl0id, -, -, htype, -⟩ := hmem s hsm.1
    have hsame : lines.filter (fun l => l.account.id == s.account_id) =
        (lines.filter (fun l => l.account.type == T)).filter
          (fun l => l.account.id == s.account_id) := by
      rw [List.filter_filter]
      apply List.filter_congr
      intro x hx
      by_cases hid : x.account.id = s.account_id
      · have : x.account = l0.account := hcons x hx l0 hl0 (by rw [hid, ← hl0id])
        have hxt : x.account.type = T := by rw [this, ← htype, hT]
        simp [hid, hxt]
      · simp [hid]
    rw [hamount]
    unfold fiberBase
    rw [hsame]
  have hndt : (keysOf ((accumulateSums lines).filter (fun s => s.type == T))).Nodup := by
    have hsub : ((accumulateSums lines).filter (fun s => s.type == T)).Sublist
        (accumulateSums lines) := List.filter_sublist _
    show (((accumulateSums lines).filter (fun s => s.type == T)).map
      (·.account_id)).Nodup
    exact List.Nodup.sublist (List.Sublist.map (·.account_id) hsub)
      (by simpa only [keysOf] using hnd)
  have hcov : ∀ l ∈ lines.filter (fun l => l.account.type == T),
      l.account.id ∈ keysOf ((accumulateSums lines).filter (fun s => s.type == T)) := by
    intro l hl
    have hlm := List.mem_filter.mp hl
    have hlT : l.account.type = T := by simpa using hlm.2
    have : l.account.id ∈ keysOf (accumulateSums lines) :=
      (hkeys _).mpr (List.mem_map.mpr ⟨l, hlm.1, rfl⟩)
    obtain ⟨s, hs, hsid⟩ := List.mem_map.mp this
    obtain ⟨-, l0, hl0, hl0id, -, -, htype, -⟩ := hmem s hs
    have : l0.account = l.account :=
      hcons l0 hl0 l hlm.1 (by rw [hl0id, hsid])
    have hsT : s.type = T := by rw [htype, this, hlT]
    exact List.mem_map.mpr ⟨s, List.mem_filter.mpr ⟨hs, by simpa using hsT⟩, hsid⟩
  have h1 : sumAmountBase ((accumulateSums lines).filter (fun s => s.type == T)) =
      ((keysOf ((accumulateSums lines).filter (fun s => s.type == T))).map
        (fiberBase (lines.filter (fun l => l.account.type == T)))).sum := by
    simp only [sumAmountBase, keysOf, List.map_map]
    exact congrArg _ (List.map_congr_left (fun s hs => hfiber s hs))
  rw [h1, fiberwise_sum _ _ hndt hcov]
  rfl

theorem sumDisplay_map_setDisplay (ss : List LineSum) (b : Bool)
    (h : ∀ s ∈ ss, s.normal_debit = b) :
    sumDisplay (ss.map setDisplay) =
      if b then sumAmountBase ss else -(sumAmountBase ss) := by
  induction ss with
  | nil => cases b <;> simp [sumDisplay, sumAmountBase]
  | cons s ss0 ih =>
    have hs := h s (List.mem_cons_self s ss0)
    have ih0 := ih (fun x hx => h x (List.mem_cons_of_mem _ hx))
    have hcons : sumDisplay ((s :: ss0).map setDisplay) =
        (setDisplay s).display + sumDisplay (ss0.map setDisplay) := by
      simp [sumDisplay]
    have hamt : sumAmountBase (s :: ss0) = s.amount_base + sumAmountBase ss0 := by
      simp [sumAmountBase]
    rw [hcons, ih0, hamt]
    have hdisp : (setDisplay s).display =
        if s.normal_debit then s.amount_base else -s.amount_base := rfl
    rw [hdisp, hs]
    cases b
    · simp
      ring
    · simp

theorem typed_display_total (lines : List EntryLine) (T : AccountType) (b : Bool)
    (hflag : ∀ l ∈ lines, l.account.type = T → l.account.normal_debit = b) :
    sumDisplay ((_accumulate lines).filter (fun s => s.type == T)) =
      if b then
        sumAmountBase ((accumulateSums lines).filter (fun s => s.type == T))
      else
        -(sumAmountBase ((accumulateSums lines).filter (fun s => s.type == T))) := by
  have hcomm : (_accumulate lines).filter (fun s => s.type == T) =
      ((accumulateSums lines).filter (fun s => s.type == T)).map setDisplay := by
    show List.filter _ (List.map setDisplay (accumulateSums lines)) = _
    rw [List.filter_map]
    rfl
  rw [hcomm]
  apply sumDisplay_map_setDisplay
  intro s hs
  have hsm := List.mem_filter.mp hs
  obtain ⟨-, l0, hl0, -, -, -, htype, hnd⟩ :=
    (accumulateSums_spec lines).2.2 s hsm.1
  rw [hnd]
  apply hflag l0 hl0
  rw [← htype]
  simpa using hsm.2

theorem sumBase_type_partition (lines : List EntryLine) :
    sumBase lines =
      typedLineBase lines .ASSET + typedLineBase lines .LIAB
      + typedLineBase lines .EQTY + typedLineBase lines .INC
      + typedLineBase lines .EXP + typedLineBase lines .C_ASSET
      + typedLineBase lines .C_LIAB := by
  induction lines with
  | nil => simp [sumBase, typedLineBase]
  | cons l ls ih =>
    cases htype : l.account.type <;>
      simp [sumBase, typedLineBase, List.filter_cons, htype] at ih ⊢ <;>
      omega

theorem sumBase_eq_debits_sub_credits (lines : List EntryLine) :
    sumBase lines = sumDebits lines - sumCredits lines := by
  induction lines with
  | nil => simp [sumBase, sumDebits, sumCredits]
  | cons l ls ih =>
    simp [sumBase, sumDebits, sumCredits] at ih ⊢
    omega

theorem sumBase_flatMap (txs : List Transaction)
    (h : ∀ tx ∈ txs, sumBase tx.lines = 0) :
    sumBase (txs.flatMap (·.lines)) = 0 := by
  induction txs with
  | nil => simp [sumBase]
  | cons t ts ih =>
    rw [List.flatMap_cons, sumBase_append, h t (List.mem_cons_self t ts),
      ih (fun x hx => h x (List.mem_cons_of_mem _ hx))]
    ring

theorem sumBase_iter_zero (st : Ledger) (endDate : Int)
    (hbal : ∀ tx ∈ st.transactions, tx.posted = true →
      sumDebits tx.lines = sumCredits tx.lines) :
    sumBase (_iter_lines st none endDate) = 0 := by
  unfold _iter_lines
  apply sumBase_flatMap
  intro tx htx
  have h1 := List.mem_filter.mp htx
  have h2 := List.mem_filter.mp h1.1
  have hposted : tx.posted = true := by
    have := h2.2
    simp only [Bool.and_eq_true] at this
    exact this.1
  rw [sumBase_eq_debits_sub_credits, hbal tx h2.1 hposted]
  ring

theorem balance_sheet_totals (st : Ledger) (as_of : Int)
    (hcons : consistentAccounts (_iter_lines st none as_of))
    (hflags : ∀ l ∈ _iter_lines st none as_of, conventionalFlags l.account)
    (hbal : ∀ tx ∈ st.transactions, tx.posted = true →
      sumDebits tx.lines = sumCredits tx.lines) :
    (balance_sheet st as_of).total_assets
      - (balance_sheet st as_of).total_liabilities_plus_equity
      = -(typedLineBase (_iter_lines st none as_of) .C_ASSET
          + typedLineBase (_iter_lines st none as_of) .C_LIAB) := by
  have hA := typed_display_total (_iter_lines st none as_of) .ASSET true
    (fun l hl h => ((hflags l hl).1 h))
  have hLi := typed_display_total (_iter_lines st none as_of) .LIAB false
    (fun l hl h => ((hflags l hl).2.1 h))
  have hE := typed_display_total (_iter_lines st none as_of) .EQTY false
    (fun l hl h => ((hflags l hl).2.2.1 h))
  have hI := typed_display_total (_iter_lines st none as_of) .INC false
    (fun l hl h => ((hflags l hl).2.2.2.1 h))
  have hX := typed_display_total (_iter_lines st none as_of) .EXP true
    (fun l hl h => ((hflags l hl).2.2.2.2 h))
  have tA := typed_amount_base (_iter_lines st none as_of) .ASSET hcons
  have tLi := typed_amount_base (_iter_lines st none as_of) .LIAB hcons
  have tE := typed_amount_base (_iter_lines st none as_of) .EQTY hcons
  have tI := typed_amount_base (_iter_lines st none as_of) .INC hcons
  have tX := typed_amount_base (_iter_lines st none as_of) .EXP hcons
  have hpart := sumBase_type_partition (_iter_lines st none as_of)
  have hzero := sumBase_iter_zero st as_of hbal
  have ha : (balance_sheet st as_of).total_assets =
      sumDisplay ((_accumulate (_iter_lines st none as_of)).filter
        (fun s => s.type == AccountType.ASSET)) := rfl
  have hle : (balance_sheet st as_of).total_liabilities_plus_equity =
      sumDisplay ((_accumulate (_iter_lines st none as_of)).filter
        (fun s => s.type == AccountType.LIAB))
      + (sumDisplay ((_accumulate (_iter_lines st none as_of)).filter
          (fun s => s.type == AccountType.EQTY))
        + (sumDisplay ((_accumulate (_iter_lines st none as_of)).filter
            (fun s => s.type == AccountType.INC))
          - sumDisplay ((_accumulate (_iter_lines st none as_of)).filter
              (fun s => s.type == AccountType.EXP)))) := rfl
  rw [ha, hle, hA, hLi, hE, hI, hX]
  simp only [if_true, Bool.false_eq_true, if_false]
  rw [tA, tLi, tE, tI, tX]
  omega

/-! ### Claim theorems: reporting -/

/-- Claim C8: for every account row produced by the accumulation primitive
`_accumulate`, `display` is `amount_base` for a debit-normal account and
`-amount_base` otherwise, where `amount_base` is the sum of
`debit - credit` over the account's selected lines. -/
theorem accumulate_display_rule (lines : List EntryLine) :
    ∀ s ∈ _accumulate lines,
      s.display = (if s.normal_debit then s.amount_base else -s.amount_base)
      ∧ s.amount_base = fiberBase lines s.account_id := by
  intro s hs
  unfold _accumulate at hs
  obtain ⟨s0, hs0, rfl⟩ := List.mem_map.mp hs
  exact ⟨rfl, ((accumulateSums_spec lines).2.2 s0 hs0).1⟩

/-- Claim C8 (witness): in the 125.00 sale, the Asset account
(debit 125.00) and the Income account (credit 125.00) both display
125.00. -/
theorem accumulate_display_rule_witness :
    cashSum ∈ _accumulate samplePostedTx.lines
    ∧ cashSum.display =
        (if cashSum.normal_debit then cashSum.amount_base else -cashSum.amount_base)
    ∧ cashSum.display = 12500
    ∧ revenueSum ∈ _accumulate samplePostedTx.lines
    ∧ revenueSum.display =
        (if revenueSum.normal_debit then revenueSum.amount_base else -revenueSum.amount_base)
    ∧ revenueSum.display = 12500 := by
  have h1 : cashSum ∈ _accumulate samplePostedTx.lines := by decide
  have h2 : revenueSum ∈ _accumulate samplePostedTx.lines := by decide
  exact ⟨h1, (accumulate_display_rule samplePostedTx.lines cashSum h1).1, rfl,
    h2, (accumulate_display_rule samplePostedTx.lines revenueSum h2).1, rfl⟩

/-- Claim C4 (counterexample): a fixture whose only transaction is posted
and balanced but touches a contra-asset account has
`balance_sheet(...).totals.balanced = false` — the claim does not hold for
*every* fixture. -/
theorem balance_sheet_balanced_counterexample :
    contraTx.posted = true
    ∧ sumDebits contraTx.lines = sumCredits contraTx.lines
    ∧ (balance_sheet contraLedger 0).balanced = false := by
  exact ⟨rfl, rfl, rfl⟩

/-- Claim C4 (amended): for every fixture whose selected accounts all carry
one of the five standard types with the conventional normal-balance flags,
with consistent account rows and every posted transaction balanced,
`balance_sheet(as_of).totals.balanced` is true (assets equal liabilities
plus equity including the synthetic retained-earnings line). -/
theorem balance_sheet_balanced_standard (st : Ledger) (as_of : Int)
    (hcons : consistentAccounts (_iter_lines st none as_of))
    (hstd : ∀ l ∈ _iter_lines st none as_of, standardType l.account.type)
    (hflags : ∀ l ∈ _iter_lines st none as_of, conventionalFlags l.account)
    (hbal : ∀ tx ∈ st.transactions, tx.posted = true →
      sumDebits tx.lines = sumCredits tx.lines) :
    (balance_sheet st as_of).balanced = true := by
  have hdiff := balance_sheet_totals st as_of hcons hflags hbal
  have hca : typedLineBase (_iter_lines st none as_of) .C_ASSET = 0 := by
    unfold typedLineBase
    have hnil : (_iter_lines st none as_of).filter
        (fun l => l.account.type == AccountType.C_ASSET) = [] := by
      rw [List.filter_eq_nil_iff]
      intro l hl h
      rw [beq_iff_eq] at h
      rcases hstd l hl with h1 | h1 | h1 | h1 | h1 <;>
        exact absurd (h1.symm.trans h) (by decide)
    rw [hnil]
    simp [sumBase]
  have hcl : typedLineBase (_iter_lines st none as_of) .C_LIAB = 0 := by
    unfold typedLineBase
    have hnil : (_iter_lines st none as_of).filter
        (fun l => l.account.type == AccountType.C_LIAB) = [] := by
      rw [List.filter_eq_nil_iff]
      intro l hl h
      rw [beq_iff_eq] at h
      rcases hstd l hl with h1 | h1 | h1 | h1 | h1 <;>
        exact absurd (h1.symm.trans h) (by decide)
    rw [hnil]
    simp [sumBase]
  have hb : (balance_sheet st as_of).balanced =
      ((balance_sheet st as_of).total_assets ==
        (balance_sheet st as_of).total_liabilities_plus_equity) := rfl
  rw [hb, beq_iff_eq]
  omega

/-- Claim C4 (witness): the amended statement applied to the fixture with
the posted 125.00 sale (Asset and Income accounts only). -/
theorem balance_sheet_balanced_standard_witness :
    (balance_sheet sampleLedger 0).balanced = true :=
  balance_sheet_balanced_standard sampleLedger 0
    (by unfold consistentAccounts; decide)
    (by unfold standardType; decide)
    (by unfold conventionalFlags; decide)
    (by decide)

/-- Claim C10: in a balance sheet over consistent, conventionally flagged
accounts with balanced posted transactions, every assets/liabilities/equity
row comes from an account of type Asset/Liability/Equity respectively (plus
the synthetic retained-earnings line), so contra-typed accounts contribute
to no section; and the assets vs liabilities-plus-equity comparison is
shifted by exactly the cumulative contra balance: the difference equals its
negation, and `balanced` holds exactly when that balance is zero. -/
theorem balance_sheet_ignores_contra (st : Ledger) (as_of : Int)
    (hcons : consistentAccounts (_iter_lines st none as_of))
    (hflags : ∀ l ∈ _iter_lines st none as_of, conventionalFlags l.account)
    (hbal : ∀ tx ∈ st.transactions, tx.posted = true →
      sumDebits tx.lines = sumCredits tx.lines) :
    (∀ r ∈ (balance_sheet st as_of).assets, ∃ s,
        s ∈ _accumulate (_iter_lines st none as_of) ∧ s.type = .ASSET ∧ r = rowOf s)
    ∧ (∀ r ∈ (balance_sheet st as_of).liabilities, ∃ s,
        s ∈ _accumulate (_iter_lines st none as_of) ∧ s.type = .LIAB ∧ r = rowOf s)
    ∧ (∀ r ∈ (balance_sheet st as_of).equity, (∃ s,
        s ∈ _accumulate (_iter_lines st none as_of) ∧ s.type = .EQTY ∧ r = rowOf s)
        ∨ (r.code = "RETAINED" ∧ r.name = "Retained Earnings"))
    ∧ ((balance_sheet st as_of).total_assets
        - (balance_sheet st as_of).total_liabilities_plus_equity
        = -(typedLineBase (_iter_lines st none as_of) .C_ASSET
            + typedLineBase (_iter_lines st none as_of) .C_LIAB))
    ∧ ((balance_sheet st as_of).balanced = true ↔
        typedLineBase (_iter_lines st none as_of) .C_ASSET
        + typedLineBase (_iter_lines st none as_of) .C_LIAB = 0) := by
  have hdiff := balance_sheet_totals st as_of hcons hflags hbal
  have hassets : (balance_sheet st as_of).assets =
      (sortByCode ((_accumulate (_iter_lines st none as_of)).filter
        (fun s => s.type == AccountType.ASSET))).map rowOf := rfl
  have hliabs : (balance_sheet st as_of).liabilities =
      (sortByCode ((_accumulate (_iter_lines st none as_of)).filter
        (fun s => s.type == AccountType.LIAB))).map rowOf := rfl
  refine ⟨?_, ?_, ?_, hdiff, ?_⟩
  · intro r hr
    rw [hassets] at hr
    obtain ⟨sx, hsx, rfl⟩ := List.mem_map.mp hr
    have hsx2 : sx ∈ (_accumulate (_iter_lines st none as_of)).filter
        (fun s => s.type == AccountType.ASSET) :=
      (List.mergeSort_perm _ _).mem_iff.mp hsx
    have hm := List.mem_filter.mp hsx2
    exact ⟨sx, hm.1, by simpa using hm.2, rfl⟩
  · intro r hr
    rw [hliabs] at hr
    obtain ⟨sx, hsx, rfl⟩ := List.mem_map.mp hr
    have hsx2 : sx ∈ (_accumulate (_iter_lines st none as_of)).filter
        (fun s => s.type == AccountType.LIAB) :=
      (List.mergeSort_perm _ _).mem_iff.mp hsx
    have hm := List.mem_filter.mp hsx2
    exact ⟨sx, hm.1, by simpa using hm.2, rfl⟩
  · intro r hr
    have hequity : (balance_sheet st as_of).equity =
        (sortByCode ((_accumulate (_iter_lines st none as_of)).filter
          (fun s => s.type == AccountType.EQTY))).map rowOf ++
        [{ code := "RETAINED", name := "Retained Earnings",
           amount := sumDisplay ((_accumulate (_iter_lines st none as_of)).filter
               (fun s => s.type == AccountType.INC))
             - sumDisplay ((_accumulate (_iter_lines st none as_of)).filter
                 (fun s => s.type == AccountType.EXP)) }] := rfl
    rw [hequity] at hr
    rcases List.mem_append.mp hr with hr1 | hr2
    · obtain ⟨sx, hsx, rfl⟩ := List.mem_map.mp hr1
      have hsx2 : sx ∈ (_accumulate (_iter_lines st none as_of)).filter
          (fun s => s.type == AccountType.EQTY) :=
        (List.mergeSort_perm _ _).mem_iff.mp hsx
      have hm := List.mem_filter.mp hsx2
      exact .inl ⟨sx, hm.1, by simpa using hm.2, rfl⟩
    · rw [List.mem_singleton.mp hr2]
      exact .inr ⟨rfl, rfl⟩
  · have hb : (balance_sheet st as_of).balanced =
        ((balance_sheet st as_of).total_assets ==
          (balance_sheet st as_of).total_liabilities_plus_equity) := rfl
    rw [hb, beq_iff_eq]
    constructor
    · intro h
      omega
    · intro h
      omega

/-- Claim C10 (witness): the contra-asset fixture — the comparison is off by
exactly the contra balance and `balanced` fails because it is nonzero. -/
theorem balance_sheet_ignores_contra_witness :
    ((balance_sheet contraLedger 0).total_assets
      - (balance_sheet contraLedger 0).total_liabilities_plus_equity
      = -(typedLineBase (_iter_lines contraLedger none 0) .C_ASSET
          + typedLineBase (_iter_lines contraLedger none 0) .C_LIAB))
    ∧ ((balance_sheet contraLedger 0).balanced = true ↔
        typedLineBase (_iter_lines contraLedger none 0) .C_ASSET
        + typedLineBase (_iter_lines contraLedger none 0) .C_LIAB = 0) := by
  have h := balance_sheet_ignores_contra contraLedger 0
    (by unfold consistentAccounts; decide)
    (by unfold conventionalFlags; decide)
    (by decide)
  exact ⟨h.2.2.2.1, h.2.2.2.2⟩

end Accounting
